import Mathlib

/-!
Verification of the micro-benchmark harness (micro-optimize-algo).

Shallow embedding of the measurement and scheduling engine of the
repository: the seeded RNG and Fisher–Yates shuffle (`src/utils/bench.rs`),
the task scheduler (`src/utils/runner.rs`), the statistics aggregator
(`compute_result` in `src/utils/runner.rs`, `compute_stats` in
`src/utils/bench.rs`, `calculate_median` in `src/utils/timer.rs`), the
cycle-counter elapsed computation (`src/utils/bench.rs`,
`src/utils/cycles.rs`), the xoroshiro correctness verifier
(`src/random/xoroshiro/mod.rs`), the execution harness loops
(`src/utils/runner.rs`, `src/utils/timer.rs`) and the CPU-affinity guard
state machine (`src/utils/cpu_affinity.rs`).

Machine integers (`u64`, `usize`, `u32`) are modelled as `Nat` with
explicit `% 2 ^ 64` (resp. `% 2 ^ 32`) where the Rust code wraps.
-/

namespace MicroBench

open scoped List

/-! ## `src/utils/bench.rs`: `SeededRng` -/

/-- Source `SeededRng::next_u64`: `state = state.wrapping_mul(6364136223846793005).wrapping_add(1)`,
returning the updated state.  The state is a `u64`, modelled as `Nat` reduced mod `2^64`. -/
def SeededRng.next (state : Nat) : Nat :=
  (state * 6364136223846793005 + 1) % 2 ^ 64

/-- Source `SeededRng::next_u32_range`: `(self.next_u64() >> 32) as u32 % max`.
The modulo by `max` is unguarded in the source; `max = 0` panics with a
division-by-zero, modelled as `none`.  On success returns the drawn value
together with the advanced RNG state. -/
def SeededRng.next_u32_range (state max : Nat) : Option (Nat × Nat) :=
  let s := SeededRng.next state
  let hi := (s >>> 32) % 2 ^ 32
  if max = 0 then none else some (hi % max, s)

/-! ## `src/utils/bench.rs`: Fisher–Yates shuffle -/

/-- Source `slice.swap(i, j)` on a list; for in-bounds indices it exchanges the
elements at `i` and `j` (the only case the shuffle exercises). -/
def swapL {α : Type} (l : List α) (i j : Nat) : List α :=
  if h : i < l.length ∧ j < l.length then
    (l.set i (l.get ⟨j, h.2⟩)).set j (l.get ⟨i, h.1⟩)
  else l

/-- The loop body of `shuffle_with_rng`, iterating the index `i` of
`for i in (1..slice.len()).rev()` downwards: at index `i`,
`j = (rng.next_u64() >> 33) as usize % (i + 1)` and the slice swaps `i, j`.
Returns the permuted list together with the final RNG state. -/
def fisherYatesAux {α : Type} : Nat → List α → Nat → List α × Nat
  | 0, l, state => (l, state)
  | i + 1, l, state =>
    let s := SeededRng.next state
    let j := (s >>> 33) % (i + 1 + 1)
    fisherYatesAux i (swapL l (i + 1) j) s

/-- Source `shuffle_with_rng(slice, rng)`: Fisher–Yates over the whole slice,
threading the RNG state. -/
def shuffle_with_rng {α : Type} (l : List α) (state : Nat) : List α × Nat :=
  fisherYatesAux (l.length - 1) l state

/-- Source `shuffle(slice, seed)`: shuffle with a fresh `SeededRng::new(seed)`. -/
def shuffle {α : Type} (l : List α) (seed : Nat) : List α :=
  (shuffle_with_rng l seed).1

/-! ## `src/utils/runner.rs`: task generation -/

/-- The eager cross product of `generate_shuffled_tasks`:
`(0..num_closures).flat_map(|c| (0..runs).map(move |r| (c, r))).collect()`. -/
def generateTasks (num_closures runs : Nat) : List (Nat × Nat) :=
  (List.range num_closures).flatMap (fun c => (List.range runs).map (fun r => (c, r)))

/-- Source `generate_shuffled_tasks(num_closures, runs, seed)`: build the cross
product, then `shuffle(&mut tasks, seed)`. -/
def generate_shuffled_tasks (num_closures runs seed : Nat) : List (Nat × Nat) :=
  shuffle (generateTasks num_closures runs) seed

/-- Source `time_seed()` fallback: `seed.unwrap_or_else(time_seed)` in
`run_benchmarks`; the ambient time reading is a parameter. -/
def effectiveSeed (seed : Option Nat) (time_nanos : Nat) : Nat :=
  seed.getD time_nanos

/-- The task order `run_benchmarks` executes, as a function of the config
seed and of the ambient time reading used when no seed is supplied. -/
def scheduledTasks (num_closures runs : Nat) (seed : Option Nat) (time_nanos : Nat) :
    List (Nat × Nat) :=
  generate_shuffled_tasks num_closures runs (effectiveSeed seed time_nanos)

/-! ### Permutation lemmas for the shuffle -/

/-! ## `src/utils/bench.rs` / `src/utils/cycles.rs`: elapsed measurement -/

/-- Source `u64::saturating_sub`. -/
def saturating_sub (a b : Nat) : Nat := if a < b then 0 else a - b

/-- Source `elapsed(start)` in the cycle-counter backend:
`read_cycles().saturating_sub(start)`; the value returned by the current
`read_cycles()` call is the parameter `current`. -/
def elapsed (current start : Nat) : Nat := saturating_sub current start

/-- Source `measure_cycles(f)`: reads `start`, runs `f` obtaining `result`, reads
`end`, and returns `(end.saturating_sub(start), result)`.  The two counter
readings are the parameters. -/
def measure_cycles {α : Type} (start_reading end_reading : Nat) (result : α) : Nat × α :=
  (saturating_sub end_reading start_reading, result)

/-! ## Statistics aggregation -/

/-- Source `Vec::sort()` on nanosecond values: any correct sort of `u64` values;
modelled with insertion sort. -/
def sortNat (l : List Nat) : List Nat := List.insertionSort (· ≤ ·) l

/-- Source `calculate_median(times)` (`src/utils/timer.rs`): zero for the empty
list, else the element at index `sorted.len() / 2` of the sorted copy. -/
def calculate_median (times : List Nat) : Nat :=
  if times.isEmpty then 0
  else (sortNat times).getD ((sortNat times).length / 2) 0

/-- The trimming step of `compute_result` (`src/utils/runner.rs`): sort the
nanosecond values; when `filter_outliers` is set and there are more than 10
samples, keep `nanos[start..end]` where
`trim_count = (nanos.len() as f64 * 0.005).ceil() as usize`,
`start = trim_count.min(nanos.len() / 4)` and
`end = (nanos.len() - trim_count).max(start + 1)`.  The `f64` ceiling is
modelled by the exact `⌈len / 200⌉ = (len + 199) / 200`, which agrees with
the double-precision computation for every realistic sample count. -/
def trimmedSamples (values : List Nat) (filter_outliers : Bool) : List Nat :=
  let nanos := sortNat values
  if filter_outliers ∧ 10 < nanos.length then
    let trim_count := (nanos.length + 199) / 200
    let start := min trim_count (nanos.length / 4)
    let stop := max (nanos.length - trim_count) (start + 1)
    (nanos.drop start).take (stop - start)
  else nanos

/-- The statistics record built by `compute_result`.  The source stores
`std_dev = variance.sqrt() as u64`; the embedding keeps the exact variance
(`std_dev_sq`), which is zero exactly when the source's `std_dev` is
computed from a zero variance. -/
structure BenchStats where
  avg_time : Nat
  median_time : Nat
  min_time : Nat
  max_time : Nat
  std_dev_sq : ℚ
deriving DecidableEq

/-- Source `compute_result` (`src/utils/runner.rs`): all-zero statistics on the
empty list; otherwise min/max/median by index into the (possibly trimmed)
sorted sequence, integer-division mean, and sample variance with divisor
`(len - 1).max(1)`. -/
def compute_result (values : List Nat) (filter_outliers : Bool) : BenchStats :=
  if values.isEmpty then ⟨0, 0, 0, 0, 0⟩
  else
    let trimmed := trimmedSamples values filter_outliers
    let min_val := trimmed.getD 0 0
    let max_val := trimmed.getD (trimmed.length - 1) 0
    let median_val := trimmed.getD (trimmed.length / 2) 0
    let sum := trimmed.sum
    let avg_val := sum / trimmed.length
    let variance : ℚ :=
      ((trimmed.map fun v => ((v : ℚ) - (avg_val : ℚ)) ^ 2).sum) /
        ((max (trimmed.length - 1) 1 : Nat) : ℚ)
    ⟨avg_val, median_val, min_val, max_val, variance⟩

/-- Source `calculate_std_dev` (`src/utils/bench.rs`), kept as the exact variance:
zero when fewer than two samples, else sample variance with divisor
`len - 1`. -/
def calculate_std_dev_sq (times : List Nat) (mean : Nat) : ℚ :=
  if times.length < 2 then 0
  else ((times.map fun t => ((t : ℚ) - (mean : ℚ)) ^ 2).sum) / (((times.length - 1 : Nat)) : ℚ)

/-- Source `compute_stats` (`src/utils/bench.rs`): `(avg, min, max, std_dev)` over
nanosecond values, all zero for the empty list. -/
def compute_stats (times : List Nat) : Nat × Nat × Nat × ℚ :=
  if times.isEmpty then (0, 0, 0, 0)
  else
    let minv := (times.min?).getD 0
    let maxv := (times.max?).getD 0
    let total := times.sum
    let avg := total / times.length
    (avg, minv, maxv, calculate_std_dev_sq times avg)

/-- Modelled from the spec sentence of claim C3: the middle element of the
sorted sequence, taking the LOWER-middle element when the count is even. -/
def medianSpecLower (l : List Nat) : Nat :=
  if l.length % 2 = 1 then (sortNat l).getD ((l.length - 1) / 2) 0
  else (sortNat l).getD (l.length / 2 - 1) 0

/-- The amended reading of claim C3: the middle element of the sorted
sequence, taking the UPPER-middle element when the count is even. -/
def medianSpecUpper (l : List Nat) : Nat :=
  if l.length % 2 = 1 then (sortNat l).getD ((l.length - 1) / 2) 0
  else (sortNat l).getD (l.length / 2) 0

/-! ## `src/random/xoroshiro`: payload and verifier -/

/-- Source `u64::rotate_left` for a fixed rotation amount `0 < k < 64`. -/
def rotl64 (x k : Nat) : Nat := ((x <<< k) ||| (x >>> (64 - k))) % 2 ^ 64

/-- Source `xoroshiro_original(seed_lo, seed_hi)`
(`src/random/xoroshiro/code/original.rs`): one xoroshiro128++ step over the
two `u64` state words; returns `(result, new_seed_lo, new_seed_hi)`. -/
def xoroshiro_original (s0 s1 : Nat) : Nat × Nat × Nat :=
  let result := (rotl64 ((s0 + s1) % 2 ^ 64) 17 + s0) % 2 ^ 64
  let s1x := s1 ^^^ s0
  let new0 := rotl64 s0 49 ^^^ s1x ^^^ ((s1x <<< 21) % 2 ^ 64)
  let new1 := rotl64 s1x 28
  (result, new0, new1)

/-- Source `xoroshiro_x86_64_asm` (`src/random/xoroshiro/code/x86_64_asm.rs`):
the hand-written assembly block, translated instruction by instruction
(`mov`, `xor`, `lea`, `rol`, `shl`, `add` over 64-bit registers). -/
def xoroshiro_x86_64_asm (seed_lo seed_hi : Nat) : Nat × Nat × Nat :=
  let copy_seed_lo := seed_lo
  let copy_seed_hi := seed_hi
  let seed_hi1 := seed_hi ^^^ copy_seed_lo
  let rax := (copy_seed_lo + copy_seed_hi) % 2 ^ 64
  let seed_lo1 := rotl64 seed_lo 49
  let r8 := seed_hi1
  let r8s := (r8 <<< 21) % 2 ^ 64
  let rax1 := rotl64 rax 17
  let seed_lo2 := seed_lo1 ^^^ seed_hi1
  let rax2 := (rax1 + copy_seed_lo) % 2 ^ 64
  let seed_lo3 := seed_lo2 ^^^ r8s
  let seed_hi2 := rotl64 seed_hi1 28
  (rax2, seed_lo3, seed_hi2)

/-- A xoroshiro variant as registered in
`src/random/xoroshiro/code/mod.rs`: a stable name and the step function
`fn(&mut u64, &mut u64) -> u64`, modelled as `(s0, s1) ↦ (result, s0, s1)`. -/
structure VariantInfo where
  name : String
  function : Nat → Nat → Nat × Nat × Nat

/-- Source `available_variants()` for the build configuration without a C
toolchain: the pure-Rust reference and the hand-written assembly variant
(the C variant is only registered when `c_implementation_active` and its
source lives outside the crate). -/
def available_variants : List VariantInfo :=
  [⟨"original", xoroshiro_original⟩, ⟨"x86_64-asm", xoroshiro_x86_64_asm⟩]

/-- The generation loop of `XoroshiroRunner::verify`: run `f` `count`
times from state `(s0, s1)`, collecting the returned values in order. -/
def genSeq (f : Nat → Nat → Nat × Nat × Nat) : Nat → Nat → Nat → List Nat
  | _, _, 0 => []
  | s0, s1, n + 1 =>
    let t := f s0 s1
    t.1 :: genSeq f t.2.1 t.2.2 n

/-- The comparison loop of `XoroshiroRunner::verify` for one variant:
step through `expected` with the variant's own state, returning
`some (iteration, expected, actual)` at the first mismatch (`i` is the
enumeration counter) and `none` when every value matches. -/
def checkVariant (f : Nat → Nat → Nat × Nat × Nat) :
    Nat → Nat → List Nat → Nat → Option (Nat × Nat × Nat)
  | _, _, [], _ => none
  | s0, s1, e :: rest, i =>
    let t := f s0 s1
    if t.1 ≠ e then some (i, e, t.1)
    else checkVariant f t.2.1 t.2.2 rest (i + 1)

/-- The error cases of `XoroshiroRunner::verify`.  The source formats them
into a `String`; the embedding keeps the formatted data: the variant name,
the mismatching iteration, and the expected and actual values. -/
inductive VerifyError where
  | noReference : VerifyError
  | mismatch (variant : String) (iteration : Nat) (expected actual : Nat) : VerifyError
deriving DecidableEq

/-- The per-variant loop of `XoroshiroRunner::verify`: variants named
`"original"` are skipped; every other variant is replayed from the fixed
seed state `(0xdeadbeef, 0xcafebab)` against `expected`. -/
def verifyLoop : List VariantInfo → List Nat → Except VerifyError Unit
  | [], _ => Except.ok ()
  | v :: rest, expected =>
    if v.name == "original" then verifyLoop rest expected
    else
      match checkVariant v.function 0xdeadbeef 0xcafebab expected 0 with
      | some (i, e, r) => Except.error (.mismatch v.name i e r)
      | none => verifyLoop rest expected

/-- Source `XoroshiroRunner::verify`: find the reference variant named
`"original"`, generate its 100-value expected sequence from seed state
`(0xdeadbeef, 0xcafebab)`, and compare every other variant against it. -/
def verify (variants : List VariantInfo) : Except VerifyError Unit :=
  match variants.find? (fun v => v.name == "original") with
  | none => Except.error .noReference
  | some ref => verifyLoop variants (genSeq ref.function 0xdeadbeef 0xcafebab 100)

/-- The output sequence a variant produces when started from the
verifier's seed state. -/
def variantOutputs (v : VariantInfo) (count : Nat) : List Nat :=
  genSeq v.function 0xdeadbeef 0xcafebab count

/-! ## `src/utils/runner.rs` / `src/utils/timer.rs`: execution harness

A trial closure (`Box<dyn FnMut() -> (Measurement, Option<f64>)>`) is
modelled by its invocation stream `Nat → Nat × Option β`: the measurement
and optional numeric result its `k`-th call returns (`β` stands for the
opaque `f64` payload).  Because every call of a closure appends exactly one
measurement to that closure's list, the closure's next invocation index is
the current length of its measurement list. -/

/-- One iteration of the task loop shared by `execute_with_global_pin` and
`execute_with_per_call_pin`: look up the task's closure, call it, push the
measurement onto `measurements[closure_idx]`, and overwrite
`result_samples[closure_idx]` only `if result.is_some()`. -/
def execStep {β : Type} (closures : List (Nat → Nat × Option β))
    (st : List (List Nat) × List (Option β)) (task : Nat × Nat) :
    List (List Nat) × List (Option β) :=
  let idx := task.1
  let k := (st.1.getD idx []).length
  let ret := (closures.getD idx (fun _ => (0, none))) k
  (st.1.set idx (st.1.getD idx [] ++ [ret.1]),
    if ret.2.isSome then st.2.set idx ret.2 else st.2)

/-- Source `execute_tasks` (`src/utils/runner.rs`): run the shuffled task list in
order over initially empty per-closure measurement lists and `None`
result samples.  The pinning guards do not touch the recorded data, so the
two pin strategies share this recording loop. -/
def execute_tasks {β : Type} (closures : List (Nat → Nat × Option β))
    (tasks : List (Nat × Nat)) : List (List Nat) × List (Option β) :=
  tasks.foldl (execStep closures) (closures.map fun _ => [], closures.map fun _ => none)

/-- One iteration of the `measure_variants` task loop
(`src/utils/timer.rs`): identical to `execStep` except that
`result_samples[variant_idx] = result;` is unconditional. -/
def measureStep {β : Type} (closures : List (Nat → Nat × Option β))
    (st : List (List Nat) × List (Option β)) (task : Nat × Nat) :
    List (List Nat) × List (Option β) :=
  let idx := task.1
  let k := (st.1.getD idx []).length
  let ret := (closures.getD idx (fun _ => (0, none))) k
  (st.1.set idx (st.1.getD idx [] ++ [ret.1]), st.2.set idx ret.2)

/-- The execution loop of `measure_variants` over its (shuffled) task
list. -/
def measure_variants_loop {β : Type} (closures : List (Nat → Nat × Option β))
    (tasks : List (Nat × Nat)) : List (List Nat) × List (Option β) :=
  tasks.foldl (measureStep closures) (closures.map fun _ => [], closures.map fun _ => none)

/-- Last-write-wins over the `Some` results of a call sequence: the value
held by a cell that is overwritten exactly by the `Some` entries. -/
def lastSome {β : Type} (l : List (Option β)) : Option β :=
  l.foldl (fun acc r => if r.isSome then r else acc) none

/-! ## `src/utils/cpu_affinity.rs`: Linux affinity guard state machine

The thread state on a platform with true affinity support where the
`sched_getaffinity` / `sched_setaffinity` calls succeed: the thread's
affinity bitmask and the single-slot thread-local `ORIGINAL_AFFINITY`
cell. -/
structure AffinityState where
  mask : Nat
  saved : Option Nat
deriving DecidableEq

/-- Source `platform::save_affinity` (Linux): read the current mask and store it
in the thread-local cell, overwriting whatever the cell held. -/
def save_affinity (st : AffinityState) : AffinityState :=
  { st with saved := some st.mask }

/-- Source `platform::set_affinity(core_id)`: narrow the mask to the single
core. -/
def set_affinity (core : Nat) (st : AffinityState) : AffinityState :=
  { st with mask := 2 ^ core }

/-- Source `platform::restore_affinity`: `take()` the saved mask and reinstate it;
with an empty cell it does nothing and reports `false`. -/
def restore_affinity (st : AffinityState) : AffinityState × Bool :=
  match st.saved with
  | some m => (⟨m, none⟩, true)
  | none => (st, false)

/-- Source `pin_to_core`: `save_affinity(); set_affinity(core_id)`. -/
def pin_to_core (core : Nat) (st : AffinityState) : AffinityState :=
  set_affinity core (save_affinity st)

/-- Source `CpuPinGuard::new()` on Linux, where `get_current_cpu` succeeds with
the scheduler-chosen `core` and pinning succeeds. -/
def guard_new (core : Nat) (st : AffinityState) : AffinityState :=
  pin_to_core core st

/-- Source `CpuPinGuard::drop` for a successfully pinned guard: `unpin()`, i.e.
`restore_affinity`. -/
def guard_drop (st : AffinityState) : AffinityState :=
  (restore_affinity st).1

theorem getElem_cons_set_perm {α : Type} (t : List α) :
    ∀ (m : Nat) (hm : m < t.length) (a : α), (t.get ⟨m, hm⟩ :: t.set m a).Perm (a :: t) := by
  induction t with
  | nil => intro m hm a; exact absurd hm (by simp)
  | cons b t ih =>
    intro m hm a
    cases m with
    | zero => simpa using List.Perm.swap a b t
    | succ k =>
      have hk : k < t.length := by simpa using hm
      calc (b :: t).get ⟨k + 1, hm⟩ :: (b :: t).set (k + 1) a
          = t.get ⟨k, hk⟩ :: b :: t.set k a := by simp
        _ ~ b :: t.get ⟨k, hk⟩ :: t.set k a := List.Perm.swap b _ _
        _ ~ b :: (a :: t) := (ih k hk a).cons b
        _ ~ a :: b :: t := List.Perm.swap a b t

theorem set_set_perm {α : Type} (l : List α) (i j : Nat) (hi : i < l.length)
    (hj : j < l.length) : ((l.set i (l.get ⟨j, hj⟩)).set j (l.get ⟨i, hi⟩)).Perm l := by
  induction l generalizing i j with
  | nil => exact absurd hi (by simp)
  | cons a t ih =>
    cases i with
    | zero =>
      cases j with
      | zero => simp
      | succ m =>
        have hm : m < t.length := by simpa using hj
        have : ((a :: t).set 0 ((a :: t).get ⟨m + 1, hj⟩)).set (m + 1) ((a :: t).get ⟨0, hi⟩)
            = t.get ⟨m, hm⟩ :: t.set m a := by simp
        rw [this]
        exact getElem_cons_set_perm t m hm a
    | succ n =>
      cases j with
      | zero =>
        have hn : n < t.length := by simpa using hi
        have : ((a :: t).set (n + 1) ((a :: t).get ⟨0, hj⟩)).set 0 ((a :: t).get ⟨n + 1, hi⟩)
            = t.get ⟨n, hn⟩ :: t.set n a := by simp
        rw [this]
        exact getElem_cons_set_perm t n hn a
      | succ m =>
        have hn : n < t.length := by simpa using hi
        have hm : m < t.length := by simpa using hj
        have : ((a :: t).set (n + 1) ((a :: t).get ⟨m + 1, hj⟩)).set (m + 1)
              ((a :: t).get ⟨n + 1, hi⟩)
            = a :: ((t.set n (t.get ⟨m, hm⟩)).set m (t.get ⟨n, hn⟩)) := by simp
        rw [this]
        exact (ih n m hn hm).cons a

theorem swapL_perm {α : Type} (l : List α) (i j : Nat) : (swapL l i j).Perm l := by
  unfold swapL
  split
  · next h => exact set_set_perm l i j h.1 h.2
  · exact List.Perm.refl l

theorem fisherYatesAux_perm {α : Type} :
    ∀ (i : Nat) (l : List α) (state : Nat), ((fisherYatesAux i l state).1).Perm l := by
  intro i
  induction i with
  | zero => intro l state; exact List.Perm.refl l
  | succ k ih =>
    intro l state
    exact (ih _ _).trans (swapL_perm l (k + 1) _)

theorem shuffle_perm {α : Type} (l : List α) (seed : Nat) : (shuffle l seed).Perm l :=
  fisherYatesAux_perm _ l seed

theorem generateTasks_eq_product (n k : Nat) :
    generateTasks n k = (List.range n) ×ˢ (List.range k) := rfl

theorem generateTasks_length (n k : Nat) : (generateTasks n k).length = n * k := by
  rw [generateTasks_eq_product]
  simp [List.length_product]

theorem generateTasks_nodup (n k : Nat) : (generateTasks n k).Nodup := by
  rw [generateTasks_eq_product]
  exact (List.nodup_range n).product (List.nodup_range k)

theorem generateTasks_mem (n k v r : Nat) :
    (v, r) ∈ generateTasks n k ↔ v < n ∧ r < k := by
  rw [generateTasks_eq_product]
  simp [List.mem_product]

theorem generateTasks_count (n k v r : Nat) (hv : v < n) (hr : r < k) :
    Multiset.count (v, r) (generateTasks n k : Multiset (Nat × Nat)) = 1 :=
  Multiset.count_eq_one_of_mem (by simpa using generateTasks_nodup n k)
    (by simpa using (generateTasks_mem n k v r).mpr ⟨hv, hr⟩)

/-- C1: for every `variant_count` `n`, `repetitions` `k` and `seed`, the
task list produced by `generate_shuffled_tasks` has exactly `n * k`
entries; as a multiset it contains every pair `(variant, repetition)` with
`variant < n` and `repetition < k` exactly once, and nothing else; and the
Fisher–Yates shuffle is a permutation of the eagerly generated cross
product (identical multisets before and after shuffling). -/
theorem generate_shuffled_tasks_spec (n k seed : Nat) :
    (generateTasks n k).length = n * k ∧
    (generate_shuffled_tasks n k seed).length = n * k ∧
    ((generate_shuffled_tasks n k seed : Multiset (Nat × Nat)) =
      (generateTasks n k : Multiset (Nat × Nat))) ∧
    (∀ v r, v < n → r < k →
      Multiset.count (v, r) (generateTasks n k : Multiset (Nat × Nat)) = 1 ∧
      Multiset.count (v, r) (generate_shuffled_tasks n k seed : Multiset (Nat × Nat)) = 1) ∧
    (∀ p ∈ generate_shuffled_tasks n k seed, p.1 < n ∧ p.2 < k) := by
  have hperm : (generate_shuffled_tasks n k seed).Perm (generateTasks n k) :=
    shuffle_perm (generateTasks n k) seed
  have hmul : (generate_shuffled_tasks n k seed : Multiset (Nat × Nat)) =
      (generateTasks n k : Multiset (Nat × Nat)) := Quot.sound hperm
  refine ⟨generateTasks_length n k, ?_, hmul, ?_, ?_⟩
  · rw [hperm.length_eq, generateTasks_length]
  · intro v r hv hr
    refine ⟨generateTasks_count n k v r hv hr, ?_⟩
    rw [hmul, generateTasks_count n k v r hv hr]
  · intro p hp
    have : p ∈ generateTasks n k := hperm.mem_iff.mp hp
    exact (generateTasks_mem n k p.1 p.2).mp this

theorem generate_shuffled_tasks_spec_witness :
    (Multiset.count ((1, 2) : Nat × Nat) (generateTasks 2 3 : Multiset (Nat × Nat)) = 1 ∧
      Multiset.count ((1, 2) : Nat × Nat)
        (generate_shuffled_tasks 2 3 12345 : Multiset (Nat × Nat)) = 1) ∧
    (((1, 2) : Nat × Nat).1 < 2 ∧ ((1, 2) : Nat × Nat).2 < 3) :=
  ⟨(generate_shuffled_tasks_spec 2 3 12345).2.2.2.1 1 2 (by decide) (by decide),
    (generate_shuffled_tasks_spec 2 3 12345).2.2.2.2 (1, 2) (by decide)⟩

/-- C2: for a fixed explicitly supplied seed, two runs of the scheduler
over the same `(variant_count, repetitions)` produce identical task-order
sequences, regardless of the ambient time readings of the two runs (the
time reading only seeds the generator when no seed is supplied); the
shuffle is a pure function of the slice contents and seed. -/
theorem scheduler_deterministic (n k s t1 t2 : Nat) :
    scheduledTasks n k (some s) t1 = scheduledTasks n k (some s) t2 ∧
    (∀ (l : List (Nat × Nat)), shuffle l (effectiveSeed (some s) t1) = shuffle l s) :=
  ⟨rfl, fun _ => rfl⟩

/-- C6: the elapsed delta is non-negative and saturates at zero: it equals
`max (current - start) 0` over the integers, so a current counter reading
smaller than `start` yields zero rather than a wrapped or negative value,
and when `start ≤ current` it is the exact difference; `measure_cycles`
computes its delta the same way. -/
theorem elapsed_saturates (current start : Nat) :
    ((elapsed current start : ℤ) = max ((current : ℤ) - (start : ℤ)) 0) ∧
    ((0 : ℤ) ≤ (elapsed current start : ℤ)) ∧
    (current < start → elapsed current start = 0) ∧
    (start ≤ current → elapsed current start = current - start) ∧
    (∀ (α : Type) (r : α), (measure_cycles start current r).1 = elapsed current start) := by
  refine ⟨?_, by positivity, ?_, ?_, fun _ _ => rfl⟩
  · rcases Nat.lt_or_ge current start with h | h
    · rw [max_eq_right (by omega)]
      simp [elapsed, saturating_sub, h]
    · rw [max_eq_left (by omega)]
      simp only [elapsed, saturating_sub, if_neg (by omega : ¬ current < start)]
      omega
  · intro h; simp [elapsed, saturating_sub, h]
  · intro h; simp [elapsed, saturating_sub, Nat.not_lt.mpr h]

theorem elapsed_saturates_witness :
    elapsed 3 5 = 0 ∧ elapsed 9 2 = 9 - 2 :=
  ⟨(elapsed_saturates 3 5).2.2.1 (by decide), (elapsed_saturates 9 2).2.2.2.1 (by decide)⟩

/-- C10: for `max > 0`, `SeededRng::next_u32_range(max)` returns a value
strictly below `max` (with the RNG state advanced by one `next_u64` step);
for `max = 0` the unguarded `% max` is a division by zero and the call
panics, modelled as `none`. -/
theorem next_u32_range_spec (state max : Nat) :
    (0 < max → ∃ v s, SeededRng.next_u32_range state max = some (v, s) ∧
      v < max ∧ s = SeededRng.next state) ∧
    (max = 0 → SeededRng.next_u32_range state max = none) := by
  constructor
  · intro h
    refine ⟨((SeededRng.next state >>> 32) % 2 ^ 32) % max, SeededRng.next state,
      ?_, Nat.mod_lt _ h, rfl⟩
    simp [SeededRng.next_u32_range, Nat.pos_iff_ne_zero.mp h]
  · intro h
    simp [SeededRng.next_u32_range, h]

theorem next_u32_range_spec_witness :
    (∃ v s, SeededRng.next_u32_range 1 5 = some (v, s) ∧
      v < 5 ∧ s = SeededRng.next 1) ∧
    SeededRng.next_u32_range 7 0 = none :=
  ⟨(next_u32_range_spec 1 5).1 (by decide), (next_u32_range_spec 7 0).2 rfl⟩

theorem sortNat_sorted (l : List Nat) : List.Sorted (· ≤ ·) (sortNat l) :=
  List.sorted_insertionSort _ l

theorem sortNat_perm (l : List Nat) : (sortNat l).Perm l :=
  List.perm_insertionSort _ l

theorem sortNat_length (l : List Nat) : (sortNat l).length = l.length :=
  (sortNat_perm l).length_eq

theorem sortNat_of_sorted {l : List Nat} (h : List.Sorted (· ≤ ·) l) : sortNat l = l :=
  List.Sorted.insertionSort_eq h

theorem trimmedSamples_sorted (l : List Nat) (f : Bool) :
    List.Sorted (· ≤ ·) (trimmedSamples l f) := by
  simp only [trimmedSamples]
  split
  · exact List.Pairwise.sublist
      ((List.take_sublist _ _).trans (List.drop_sublist _ _)) (sortNat_sorted l)
  · exact sortNat_sorted l

theorem medianSpecUpper_getD (l : List Nat) :
    medianSpecUpper l = (sortNat l).getD (l.length / 2) 0 := by
  unfold medianSpecUpper
  split
  · next h => congr 1; omega
  · rfl

theorem compute_result_median (l : List Nat) (filt : Bool) (hne : l ≠ []) :
    (compute_result l filt).median_time =
      (trimmedSamples l filt).getD ((trimmedSamples l filt).length / 2) 0 := by
  rw [compute_result, if_neg (by simpa using hne)]

/-- C3 counterexample: on the two-sample list `[1, 2]` both the aggregator
and `calculate_median` return `2`, the upper-middle element of the sorted
sequence, whereas the lower-middle element stated by the claim is `1`. -/
theorem calculate_median_counterexample :
    calculate_median [1, 2] = 2 ∧ medianSpecLower [1, 2] = 1 ∧
    (compute_result [1, 2] false).median_time = 2 ∧
    calculate_median [1, 2] ≠ medianSpecLower [1, 2] := by
  refine ⟨by decide, by decide, ?_, by decide⟩
  rw [compute_result_median [1, 2] false (by decide)]
  decide

/-- C3 (amended): for every non-empty sample list the statistics
aggregator and `calculate_median` report as median the element at index
`⌊count / 2⌋` of the sorted (trimmed) sequence — the middle element for odd
counts and the UPPER-middle element for even counts, with no
interpolation. -/
theorem median_is_upper_middle (l : List Nat) (filt : Bool) :
    calculate_median l = medianSpecUpper l ∧
    (l ≠ [] → (compute_result l filt).median_time =
      medianSpecUpper (trimmedSamples l filt)) := by
  constructor
  · unfold calculate_median
    split
    · next h =>
      have hl : l = [] := by simpa using h
      subst hl
      rfl
    · rw [medianSpecUpper_getD, sortNat_length]
  · intro hne
    rw [compute_result_median l filt hne, medianSpecUpper_getD,
      sortNat_of_sorted (trimmedSamples_sorted l filt)]

theorem median_is_upper_middle_witness :
    (compute_result [3, 1, 2] true).median_time =
      medianSpecUpper (trimmedSamples [3, 1, 2] true) :=
  (median_is_upper_middle [3, 1, 2] true).2 (by decide)

theorem trim_arith (n : Nat) (hn : 10 < n) :
    min ((n + 199) / 200) (n / 4) = (n + 199) / 200 ∧
    max (n - (n + 199) / 200) ((n + 199) / 200 + 1) = n - (n + 199) / 200 ∧
    (n + 199) / 200 ≤ n / 4 ∧
    1 ≤ n - 2 * ((n + 199) / 200) := by
  omega

theorem trimmedSamples_pos (values : List Nat) (h10 : 10 < values.length) :
    trimmedSamples values true =
      ((sortNat values).drop ((values.length + 199) / 200)).take
        (values.length - 2 * ((values.length + 199) / 200)) := by
  have hsl := sortNat_length values
  have ha := trim_arith values.length h10
  simp only [trimmedSamples, hsl]
  rw [if_pos ⟨trivial, h10⟩, ha.1, ha.2.1]
  congr 1
  omega

theorem trimmedSamples_neg (values : List Nat) (filt : Bool)
    (h : filt = false ∨ values.length ≤ 10) :
    trimmedSamples values filt = sortNat values := by
  have hsl := sortNat_length values
  simp only [trimmedSamples, hsl]
  rw [if_neg]
  rintro ⟨hf, hl⟩
  rcases h with h | h
  · rw [h] at hf; exact Bool.false_ne_true hf
  · omega

/-- C4: the aggregator sorts the samples; exactly when the outlier filter
is set and there are more than 10 samples it removes
`trim_count = ⌈0.5% · count⌉` elements from each end of the sorted
sequence (the sorted sequence decomposes as a `trim_count`-element prefix,
the kept middle, and a `trim_count`-element suffix), at least one sample
remains and no more than a quarter of the samples is removed from either
end; otherwise the sequence is left untrimmed. -/
theorem trim_spec (values : List Nat) (filt : Bool) :
    (filt = true → 10 < values.length →
      trimmedSamples values filt =
        ((sortNat values).drop ((values.length + 199) / 200)).take
          (values.length - 2 * ((values.length + 199) / 200)) ∧
      (sortNat values).take ((values.length + 199) / 200) ++ trimmedSamples values filt ++
          (sortNat values).drop (values.length - (values.length + 199) / 200) =
        sortNat values ∧
      (trimmedSamples values filt).length =
        values.length - 2 * ((values.length + 199) / 200) ∧
      (values.length + 199) / 200 ≤ values.length / 4 ∧
      1 ≤ (trimmedSamples values filt).length) ∧
    ((filt = false ∨ values.length ≤ 10) → trimmedSamples values filt = sortNat values) := by
  constructor
  · intro hf h10
    subst hf
    have hsl := sortNat_length values
    have ha := trim_arith values.length h10
    have heq := trimmedSamples_pos values h10
    have hlen : (trimmedSamples values true).length =
        values.length - 2 * ((values.length + 199) / 200) := by
      rw [heq, List.length_take, List.length_drop, hsl]
      omega
    refine ⟨heq, ?_, hlen, ha.2.2.1, by omega⟩
    have hdd : (sortNat values).drop (values.length - (values.length + 199) / 200) =
        ((sortNat values).drop ((values.length + 199) / 200)).drop
          (values.length - 2 * ((values.length + 199) / 200)) := by
      rw [List.drop_drop]
      congr 1
      omega
    calc (sortNat values).take ((values.length + 199) / 200) ++ trimmedSamples values true ++
          (sortNat values).drop (values.length - (values.length + 199) / 200)
        = (sortNat values).take ((values.length + 199) / 200) ++
            (trimmedSamples values true ++
              (sortNat values).drop (values.length - (values.length + 199) / 200)) := by
          rw [List.append_assoc]
      _ = (sortNat values).take ((values.length + 199) / 200) ++
            (sortNat values).drop ((values.length + 199) / 200) := by
          rw [heq, hdd, List.take_append_drop]
      _ = sortNat values := List.take_append_drop _ _
  · exact trimmedSamples_neg values filt

theorem trim_spec_witness :
    (trimmedSamples [0, 1, 2, 3, 4, 5, 6, 7, 8, 9, 10, 11] true).length =
      12 - 2 * ((12 + 199) / 200) ∧
    trimmedSamples [0, 1, 2, 3, 4, 5, 6, 7, 8, 9, 10, 11] false =
      sortNat [0, 1, 2, 3, 4, 5, 6, 7, 8, 9, 10, 11] :=
  ⟨((trim_spec [0, 1, 2, 3, 4, 5, 6, 7, 8, 9, 10, 11] true).1 rfl (by decide)).2.2.1,
    (trim_spec [0, 1, 2, 3, 4, 5, 6, 7, 8, 9, 10, 11] false).2 (Or.inl rfl)⟩

/-- C5: for the empty sample list and either value of the outlier-filter
flag, the aggregator returns all-zero statistics (mean, median, min, max
and the standard deviation's underlying variance all zero) without
panicking or dividing by zero; `compute_stats` likewise. -/
theorem empty_samples_zero_stats (filt : Bool) :
    compute_result [] filt = ⟨0, 0, 0, 0, 0⟩ ∧
    compute_stats [] = (0, 0, 0, 0) :=
  ⟨rfl, rfl⟩

theorem xoroshiro_asm_eq_original : xoroshiro_x86_64_asm = xoroshiro_original := by
  funext s0 s1
  rfl

theorem genSeq_length (f : Nat → Nat → Nat × Nat × Nat) :
    ∀ (n s0 s1 : Nat), (genSeq f s0 s1 n).length = n := by
  intro n
  induction n with
  | zero => intro s0 s1; rfl
  | succ k ih => intro s0 s1; simpa [genSeq] using ih _ _

theorem checkVariant_none_iff (f : Nat → Nat → Nat × Nat × Nat) :
    ∀ (exp : List Nat) (s0 s1 i : Nat),
      checkVariant f s0 s1 exp i = none ↔ genSeq f s0 s1 exp.length = exp := by
  intro exp
  induction exp with
  | nil => intro s0 s1 i; simp [checkVariant, genSeq]
  | cons e rest ih =>
    intro s0 s1 i
    by_cases h : (f s0 s1).1 = e
    · simp [checkVariant, genSeq, h, ih]
    · simp [checkVariant, genSeq, h]

theorem checkVariant_some (f : Nat → Nat → Nat × Nat × Nat) :
    ∀ (exp : List Nat) (s0 s1 i j e r : Nat),
      checkVariant f s0 s1 exp i = some (j, e, r) →
      i ≤ j ∧ j - i < exp.length ∧
      (genSeq f s0 s1 exp.length).take (j - i) = exp.take (j - i) ∧
      (genSeq f s0 s1 exp.length).getD (j - i) 0 = r ∧
      exp.getD (j - i) 0 = e ∧ r ≠ e := by
  intro exp
  induction exp with
  | nil => intro s0 s1 i j e r h; exact absurd h (by simp [checkVariant])
  | cons a rest ih =>
    intro s0 s1 i j e r h
    by_cases hm : (f s0 s1).1 = a
    · have hrec : checkVariant f (f s0 s1).2.1 (f s0 s1).2.2 rest (i + 1) = some (j, e, r) := by
        simpa [checkVariant, hm] using h
      obtain ⟨hij, hlt, htake, hact, hexp, hne⟩ := ih _ _ _ _ _ _ hrec
      have hij' : i ≤ j := by omega
      have hsub : j - i = (j - (i + 1)) + 1 := by omega
      refine ⟨hij', by simp [List.length_cons]; omega, ?_, ?_, ?_, hne⟩
      · rw [hsub]
        simpa [genSeq, List.take_succ_cons, hm] using htake
      · rw [hsub]
        simpa [genSeq] using hact
      · rw [hsub]
        simpa using hexp
    · have hh : some (i, a, (f s0 s1).1) = some (j, e, r) := by
        simpa [checkVariant, hm] using h
      obtain ⟨h1, h2, h3⟩ : i = j ∧ a = e ∧ (f s0 s1).1 = r := by
        simpa using hh
      subst h1; subst h2; subst h3
      refine ⟨le_refl i, by simp, by simp, ?_, by simp, fun hc => hm hc⟩
      simp [genSeq]

theorem verifyLoop_ok_iff (exp : List Nat) :
    ∀ (variants : List VariantInfo),
      verifyLoop variants exp = Except.ok () ↔
      ∀ v ∈ variants, v.name ≠ "original" →
        checkVariant v.function 0xdeadbeef 0xcafebab exp 0 = none := by
  intro variants
  induction variants with
  | nil => simp [verifyLoop]
  | cons v rest ih =>
    by_cases hname : v.name = "original"
    · have hstep : verifyLoop (v :: rest) exp = verifyLoop rest exp := by
        simp [verifyLoop, hname]
      rw [hstep, ih]
      constructor
      · intro h u hu hun
        rcases List.mem_cons.mp hu with rfl | hu
        · exact absurd hname hun
        · exact h u hu hun
      · intro h u hu hun
        exact h u (List.mem_cons_of_mem v hu) hun
    · have hbeq : (v.name == "original") = false := by
        simpa using hname
      cases hcv : checkVariant v.function 0xdeadbeef 0xcafebab exp 0 with
      | some t =>
        obtain ⟨a, b, c⟩ := t
        have hstep : verifyLoop (v :: rest) exp =
            Except.error (VerifyError.mismatch v.name a b c) := by
          simp [verifyLoop, hbeq, hcv]
        rw [hstep]
        constructor
        · intro h; exact absurd h (by simp)
        · intro h
          exact absurd (h v (List.mem_cons_self v rest) hname) (by rw [hcv]; simp)
      | none =>
        have hstep : verifyLoop (v :: rest) exp = verifyLoop rest exp := by
          simp [verifyLoop, hbeq, hcv]
        rw [hstep, ih]
        constructor
        · intro h u hu hun
          rcases List.mem_cons.mp hu with rfl | hu
          · exact hcv
          · exact h u hu hun
        · intro h u hu hun
          exact h u (List.mem_cons_of_mem v hu) hun

theorem verifyLoop_error (exp : List Nat) :
    ∀ (variants : List VariantInfo) (nm : String) (j e r : Nat),
      verifyLoop variants exp = Except.error (.mismatch nm j e r) →
      ∃ pre v post, variants = pre ++ v :: post ∧ nm = v.name ∧ v.name ≠ "original" ∧
        (∀ u ∈ pre, u.name ≠ "original" →
          checkVariant u.function 0xdeadbeef 0xcafebab exp 0 = none) ∧
        checkVariant v.function 0xdeadbeef 0xcafebab exp 0 = some (j, e, r) := by
  intro variants
  induction variants with
  | nil => intro nm j e r h; exact absurd h (by simp [verifyLoop])
  | cons v rest ih =>
    intro nm j e r h
    by_cases hname : v.name = "original"
    · have hrec : verifyLoop rest exp = Except.error (.mismatch nm j e r) := by
        have hstep : verifyLoop (v :: rest) exp = verifyLoop rest exp := by
          simp [verifyLoop, hname]
        rw [hstep] at h
        exact h
      obtain ⟨pre, w, post, hsplit, hnm, hwname, hpre, hcw⟩ := ih nm j e r hrec
      refine ⟨v :: pre, w, post, by rw [hsplit, List.cons_append], hnm, hwname, ?_, hcw⟩
      intro u hu hun
      rcases List.mem_cons.mp hu with rfl | hu
      · exact absurd hname hun
      · exact hpre u hu hun
    · have hbeq : (v.name == "original") = false := by simpa using hname
      cases hcv : checkVariant v.function 0xdeadbeef 0xcafebab exp 0 with
      | some t =>
        obtain ⟨a, b, c⟩ := t
        have hstep : verifyLoop (v :: rest) exp =
            Except.error (VerifyError.mismatch v.name a b c) := by
          simp [verifyLoop, hbeq, hcv]
        rw [hstep] at h
        have hdata : v.name = nm ∧ a = j ∧ b = e ∧ c = r := by
          have := Except.error.inj h
          simpa [VerifyError.mismatch.injEq] using this
        refine ⟨[], v, rest, rfl, hdata.1.symm, hname, by simp, ?_⟩
        rw [hcv, hdata.2.1, hdata.2.2.1, hdata.2.2.2]
      | none =>
        have hrec : verifyLoop rest exp = Except.error (.mismatch nm j e r) := by
          have hstep : verifyLoop (v :: rest) exp = verifyLoop rest exp := by
            simp [verifyLoop, hbeq, hcv]
          rw [hstep] at h
          exact h
        obtain ⟨pre, w, post, hsplit, hnm, hwname, hpre, hcw⟩ := ih nm j e r hrec
        refine ⟨v :: pre, w, post, by rw [hsplit, List.cons_append], hnm, hwname, ?_, hcw⟩
        intro u hu hun
        rcases List.mem_cons.mp hu with rfl | hu
        · exact hcv
        · exact hpre u hu hun

/-- C7: with a reference named `"original"` present, `verify` returns
`Ok(())` if and only if every non-reference variant, started from the same
seed state as the reference, reproduces the reference's outputs for all
100 generated values; and a mismatch failure is fail-fast: the reported
error names the first failing variant (all earlier non-reference variants
match the reference completely), its first mismatching iteration index
(all earlier iterations of that variant match), and carries the expected
and the actual value, which differ. -/
theorem verify_spec (variants : List VariantInfo) (ref : VariantInfo)
    (href : variants.find? (fun v => v.name == "original") = some ref) :
    (verify variants = Except.ok () ↔
      ∀ v ∈ variants, v.name ≠ "original" →
        variantOutputs v 100 = variantOutputs ref 100) ∧
    (∀ nm j e r, verify variants = Except.error (.mismatch nm j e r) →
      ∃ pre v post, variants = pre ++ v :: post ∧ nm = v.name ∧ v.name ≠ "original" ∧
        (∀ u ∈ pre, u.name ≠ "original" →
          variantOutputs u 100 = variantOutputs ref 100) ∧
        j < 100 ∧
        (variantOutputs v 100).take j = (variantOutputs ref 100).take j ∧
        (variantOutputs v 100).getD j 0 = r ∧
        (variantOutputs ref 100).getD j 0 = e ∧ r ≠ e) := by
  have hexp : (genSeq ref.function 0xdeadbeef 0xcafebab 100).length = 100 :=
    genSeq_length ref.function 100 _ _
  have hverify : verify variants =
      verifyLoop variants (genSeq ref.function 0xdeadbeef 0xcafebab 100) := by
    rw [verify, href]
  constructor
  · rw [hverify, verifyLoop_ok_iff]
    constructor
    · intro h v hv hvn
      have := (checkVariant_none_iff v.function _ _ _ 0).mp (h v hv hvn)
      rw [hexp] at this
      exact this
    · intro h v hv hvn
      apply (checkVariant_none_iff v.function _ _ _ 0).mpr
      rw [hexp]
      exact h v hv hvn
  · intro nm j e r herr
    rw [hverify] at herr
    obtain ⟨pre, v, post, hsplit, hnm, hvn, hpre, hcv⟩ := verifyLoop_error _ variants nm j e r herr
    obtain ⟨-, hlt, htake, hact, hexpv, hner⟩ := checkVariant_some v.function _ _ _ 0 j e r hcv
    rw [hexp] at hlt
    refine ⟨pre, v, post, hsplit, hnm, hvn, ?_, by simpa using hlt, ?_, ?_, ?_, hner⟩
    · intro u hu hun
      have := (checkVariant_none_iff u.function _ _ _ 0).mp (hpre u hu hun)
      rw [hexp] at this
      exact this
    · rw [hexp] at htake; simpa using htake
    · rw [hexp] at hact; simpa using hact
    · simpa using hexpv

theorem verify_spec_witness : verify available_variants = Except.ok () := by
  apply (verify_spec available_variants ⟨"original", xoroshiro_original⟩ rfl).1.mpr
  intro v hv hname
  have hv2 : v = (⟨"original", xoroshiro_original⟩ : VariantInfo) ∨
      v = (⟨"x86_64-asm", xoroshiro_x86_64_asm⟩ : VariantInfo) := by
    simpa [available_variants] using hv
  rcases hv2 with rfl | rfl
  · exact absurd rfl hname
  · show genSeq xoroshiro_x86_64_asm 0xdeadbeef 0xcafebab 100 =
      genSeq xoroshiro_original 0xdeadbeef 0xcafebab 100
    rw [xoroshiro_asm_eq_original]

theorem lastSome_append {β : Type} (l : List (Option β)) (x : Option β) :
    lastSome (l ++ [x]) = if x.isSome then x else lastSome l := by
  simp [lastSome, List.foldl_append]

theorem getD_set_self {α : Type} (l : List α) (i : Nat) (h : i < l.length) (a d : α) :
    (l.set i a).getD i d = a := by
  simp [List.getD_eq_getElem?_getD, List.getElem?_set_self h]

theorem getD_set_ne {α : Type} (l : List α) {i j : Nat} (h : i ≠ j) (a d : α) :
    (l.set i a).getD j d = l.getD j d := by
  simp [List.getD_eq_getElem?_getD, List.getElem?_set_ne h]

theorem execute_tasks_inv {β : Type} (closures : List (Nat → Nat × Option β))
    (tasks : List (Nat × Nat)) :
    (execute_tasks closures tasks).1.length = closures.length ∧
    (execute_tasks closures tasks).2.length = closures.length ∧
    ∀ i, i < closures.length →
      (execute_tasks closures tasks).1.getD i [] =
        (List.range (tasks.filter fun t => t.1 == i).length).map
          (fun k => ((closures.getD i fun _ => (0, none)) k).1) ∧
      (execute_tasks closures tasks).2.getD i none =
        lastSome ((List.range (tasks.filter fun t => t.1 == i).length).map
          (fun k => ((closures.getD i fun _ => (0, none)) k).2)) := by
  induction tasks using List.reverseRecOn with
  | nil =>
    refine ⟨by simp [execute_tasks], by simp [execute_tasks], ?_⟩
    intro i hi
    rcases h : closures[i]? with _ | c <;>
      simp [execute_tasks, List.getD_eq_getElem?_getD, h, lastSome]
  | append_singleton ts t ih =>
    obtain ⟨hlen1, hlen2, hinv⟩ := ih
    have hstep : execute_tasks closures (ts ++ [t]) =
        execStep closures (execute_tasks closures ts) t := by
      simp [execute_tasks, List.foldl_append]
    refine ⟨?_, ?_, ?_⟩
    · rw [hstep]
      simpa [execStep] using hlen1
    · rw [hstep]
      simp only [execStep]
      split <;> simpa using hlen2
    · intro i hi
      obtain ⟨hm, hr⟩ := hinv i hi
      by_cases hti : t.1 = i
      · subst hti
        have hbt : (t.1 == t.1) = true := by simp
        have hfl : ((ts ++ [t]).filter fun u => u.1 == t.1) =
            (ts.filter fun u => u.1 == t.1) ++ [t] := by
          simp [List.filter_append, hbt]
        have hk : ((execute_tasks closures ts).1.getD t.1 []).length =
            (ts.filter fun u => u.1 == t.1).length := by
          rw [hm]; simp
        have hb1 : t.1 < (execute_tasks closures ts).1.length := by rw [hlen1]; exact hi
        have hb2 : t.1 < (execute_tasks closures ts).2.length := by rw [hlen2]; exact hi
        constructor
        · rw [hstep]
          show ((execute_tasks closures ts).1.set t.1
              ((execute_tasks closures ts).1.getD t.1 [] ++
                [((closures.getD t.1 fun _ => (0, none))
                  ((execute_tasks closures ts).1.getD t.1 []).length).1])).getD t.1 [] = _
          rw [getD_set_self _ _ hb1, hk, hm, hfl]
          simp [List.range_succ]
        · rw [hstep]
          show (if ((closures.getD t.1 fun _ => (0, none))
                ((execute_tasks closures ts).1.getD t.1 []).length).2.isSome = true then
              (execute_tasks closures ts).2.set t.1
                ((closures.getD t.1 fun _ => (0, none))
                  ((execute_tasks closures ts).1.getD t.1 []).length).2
            else (execute_tasks closures ts).2).getD t.1 none = _
          rw [hk, hfl]
          simp only [List.length_append, List.length_cons, List.length_nil, Nat.add_zero]
          rw [List.range_succ, List.map_append]
          simp only [List.map_cons, List.map_nil]
          rw [lastSome_append]
          split
          · exact getD_set_self _ _ hb2 _ _
          · exact hr
      · have hbt : (t.1 == i) = false := by simpa using hti
        have hfl : ((ts ++ [t]).filter fun u => u.1 == i) =
            ts.filter fun u => u.1 == i := by
          simp [List.filter_append, hbt]
        constructor
        · rw [hstep]
          show ((execute_tasks closures ts).1.set t.1 _).getD i [] = _
          rw [getD_set_ne _ hti, hm, hfl]
        · rw [hstep]
          show (if _ = true then (execute_tasks closures ts).2.set t.1 _
              else (execute_tasks closures ts).2).getD i none = _
          rw [hfl]
          split
          · rw [getD_set_ne _ hti, hr]
          · rw [hr]

/-- C8 (amended): in the runner's execute loops
(`execute_with_global_pin` / `execute_with_per_call_pin`), after the
shuffled task list runs, each variant's sample list holds exactly the
measurements its trial returned, one per task of that variant and in call
order, and the variant's stored result sample is the last `Some` its
trials returned (overwritten only when a trial returned a numeric result;
a `None`-returning trial leaves it unchanged).  The also-cited
`measure_variants` loop in `src/utils/timer.rs` instead assigns the result
unconditionally — see the counterexample. -/
theorem execute_tasks_spec {β : Type} (closures : List (Nat → Nat × Option β))
    (tasks : List (Nat × Nat)) (i : Nat) (hi : i < closures.length) :
    (execute_tasks closures tasks).1.getD i [] =
      (List.range (tasks.filter fun t => t.1 == i).length).map
        (fun k => ((closures.getD i fun _ => (0, none)) k).1) ∧
    (execute_tasks closures tasks).2.getD i none =
      lastSome ((List.range (tasks.filter fun t => t.1 == i).length).map
        (fun k => ((closures.getD i fun _ => (0, none)) k).2)) :=
  (execute_tasks_inv closures tasks).2.2 i hi

theorem execute_tasks_spec_witness :
    (execute_tasks [fun k => (k + 10, some k)] [(0, 0), (0, 1)]).1.getD 0 [] = [10, 11] ∧
    (execute_tasks [fun k => (k + 10, some k)] [(0, 0), (0, 1)]).2.getD 0 none = some 1 := by
  have h := execute_tasks_spec [fun k => (k + 10, some k)] [(0, 0), (0, 1)] 0 (by decide)
  constructor
  · rw [h.1]; decide
  · rw [h.2]; decide

/-- C8 counterexample: in `measure_variants` (`src/utils/timer.rs`) the
assignment `result_samples[variant_idx] = result;` is unconditional: a
single variant whose trial returns `Some 0` on its first call and `None`
on its second has its stored result sample after the first task, yet after
the second task the stored sample is `None` — the `None`-returning trial
did not leave the previously stored sample unchanged, contradicting the
claim for this cited code path. -/
theorem measure_variants_overwrite_counterexample :
    (measure_variants_loop [fun k => (5, if k = 0 then some 0 else none)]
        [(0, 0)]).2.getD 0 none = some 0 ∧
    (measure_variants_loop [fun k => (5, if k = 0 then some 0 else none)]
        [(0, 0), (0, 1)]).2.getD 0 none = none := by
  decide

/-- C9: the claim's restoration property holds for sequential guards —
a guard created on a thread whose thread-local save slot is empty restores
the pre-guard affinity mask when dropped — but fails for nested guards:
starting from mask `3 = {0, 1}` with two nested `CpuPinGuard::new()` on
core 0, the inner guard's `restore_affinity` consumes the single
thread-local slot, so after both drops the mask is `1 = {0}`, not the
pre-guard `3`.  This evaluates the code's state machine at the failing
input of the code-bug report. -/
theorem cpu_pin_guard_nested_bug :
    (∀ (mask core : Nat), guard_drop (guard_new core ⟨mask, none⟩) = ⟨mask, none⟩) ∧
    guard_drop (guard_drop (guard_new 0 (guard_new 0 ⟨3, none⟩))) = ⟨1, none⟩ ∧
    (1 : Nat) ≠ 3 :=
  ⟨fun _ _ => rfl, rfl, by decide⟩

end MicroBench
